import Mathlib

/-!
Shallow embedding of `app/endpoint.py` (a FastAPI task tracker with
pomodoro sessions) and proofs of the specification claims.

Modelling conventions:
* The two SQLAlchemy tables become two Lean lists kept in insertion
  order (`AppState.tasks`, `AppState.sessions`); `query(...).first()`
  becomes `List.find?`, row deletion becomes `List.eraseP`, and the
  in-place row mutation of `update_task` / `stop_pomodoro` becomes a
  pointwise rewrite of the matching record.
* `uuid.uuid4()` identifier generation becomes a fresh-counter field
  `nextId`; only freshness matters to the claims.
* `datetime.now()` is an explicit numeric argument `now` of the start
  operation; `timedelta(minutes=25)` is `+ 25`.
* A raised `HTTPException` becomes an `Except.error`; 404 is
  `Err.notFound`, 400 is `Err.conflict`, and a pydantic rejection of the
  request body is `Err.validationError`.  A handler that raises performs
  no store mutation in the source, so an error result leaves the state
  unchanged by construction (`stepOf`).
-/

namespace TodoPomodoro

/-- Error taxonomy of the HTTP handlers: 404, 400, and pydantic 422. -/
inductive Err where
  | notFound
  | conflict
  | validationError
deriving DecidableEq

/-- A row of the `tasks` table (`TaskModel`). -/
structure TaskRec where
  id : Nat
  title : String
  description : Option String
  status : String
deriving DecidableEq

/-- A row of the `pomodoro_sessions` table (`PomodoroSession`). -/
structure SessionRec where
  id : Nat
  task_id : Nat
  start_time : Nat
  end_time : Nat
  completed : Bool
deriving DecidableEq

/-- The persistent store: both tables plus the fresh-identifier counter. -/
structure AppState where
  tasks : List TaskRec
  sessions : List SessionRec
  nextId : Nat
deriving DecidableEq

/-- The request body of POST/PUT tasks (the pydantic `Task` model). -/
structure TaskIn where
  title : String
  description : Option String
  status : String
deriving DecidableEq

/-- The filter used in `create_pomodoro` and `stop_pomodoro`:
`PomodoroSession.task_id == task_id, PomodoroSession.completed == False`. -/
def isActiveFor (task_id : Nat) (s : SessionRec) : Bool :=
  s.task_id == task_id && s.completed == false

/-- POST /tasks (`create_task`): reject a duplicate title with 400,
otherwise insert the new row. -/
def create_task (task : TaskIn) (st : AppState) : Except Err AppState :=
  if st.tasks.any (fun u => u.title == task.title) then
    .error .conflict
  else
    .ok { st with
      tasks := st.tasks ++ [{ id := st.nextId, title := task.title,
                              description := task.description,
                              status := task.status }],
      nextId := st.nextId + 1 }

/-- GET /tasks (`get_tasks`): `if status:` filters only when the optional
query parameter is truthy, i.e. present and non-empty. -/
def get_tasks (status : Option String) (st : AppState) :
    List TaskRec × AppState :=
  match status with
  | some s => if s == "" then (st.tasks, st)
              else (st.tasks.filter (fun t => t.status == s), st)
  | none => (st.tasks, st)

/-- GET /tasks/{task_id} (`get_task`): 404 when the id is absent. -/
def get_task (task_id : Nat) (st : AppState) :
    Except Err (TaskRec × AppState) :=
  match st.tasks.find? (fun t => t.id == task_id) with
  | none => .error .notFound
  | some t => .ok (t, st)

/-- The three assignments of `update_task` applied to the matching row
and leaving every other row alone. -/
def updFn (task_id : Nat) (updated_task : TaskIn) (u : TaskRec) : TaskRec :=
  if u.id == task_id then
    { u with title := updated_task.title,
             description := updated_task.description,
             status := updated_task.status }
  else u

/-- PUT /tasks/{task_id} (`update_task`): 404 when absent, 400 when some
other row has the new title, otherwise replace title/description/status
of the matching row. -/
def update_task (task_id : Nat) (updated_task : TaskIn) (st : AppState) :
    Except Err AppState :=
  match st.tasks.find? (fun t => t.id == task_id) with
  | none => .error .notFound
  | some _ =>
    if st.tasks.any (fun u => u.title == updated_task.title && u.id != task_id) then
      .error .conflict
    else
      .ok { st with tasks := st.tasks.map (updFn task_id updated_task) }

/-- DELETE /tasks/{task_id} (`delete_task`): 404 when absent, otherwise
remove the matching row; sessions are not touched. -/
def delete_task (task_id : Nat) (st : AppState) : Except Err AppState :=
  match st.tasks.find? (fun t => t.id == task_id) with
  | none => .error .notFound
  | some _ => .ok { st with tasks := st.tasks.eraseP (fun t => t.id == task_id) }

/-- POST /pomodoro (`create_pomodoro`): 404 when the task is absent, 400
when an uncompleted session for the task exists, otherwise insert a new
session running from `now` to `now + 25`. -/
def create_pomodoro (task_id : Nat) (now : Nat) (st : AppState) :
    Except Err AppState :=
  match st.tasks.find? (fun t => t.id == task_id) with
  | none => .error .notFound
  | some _ =>
    if st.sessions.any (isActiveFor task_id) then
      .error .conflict
    else
      let session : SessionRec :=
        { id := st.nextId, task_id := task_id, start_time := now,
          end_time := now + 25, completed := false }
      .ok { st with sessions := st.sessions ++ [session],
                    nextId := st.nextId + 1 }

/-- The row mutation `session.completed = True` applied to the row that
`query(...).first()` returned: flip the first uncompleted session of the
task. -/
def setFirstActiveCompleted : List SessionRec → Nat → List SessionRec
  | [], _ => []
  | s :: rest, task_id =>
    if isActiveFor task_id s then
      { s with completed := true } :: rest
    else
      s :: setFirstActiveCompleted rest task_id

/-- POST /pomodoro/{task_id}/stop (`stop_pomodoro`): 404 when no
uncompleted session exists for the task, otherwise mark the found
session completed.  No comparison against `end_time` occurs. -/
def stop_pomodoro (task_id : Nat) (st : AppState) : Except Err AppState :=
  match st.sessions.find? (isActiveFor task_id) with
  | none => .error .notFound
  | some _ => .ok { st with sessions := setFirstActiveCompleted st.sessions task_id }

/-- Lookup in the python dict built by `get_pomodoro_stats`, modelled as
an association list in key-insertion order. -/
def dictGet (m : List (Nat × Nat)) (k : Nat) : Option Nat :=
  (m.find? (fun p => p.1 == k)).map (fun p => p.2)

/-- Dict assignment `stats[k] = v`: overwrite the existing key or append. -/
def dictSet : List (Nat × Nat) → Nat → Nat → List (Nat × Nat)
  | [], k, v => [(k, v)]
  | p :: rest, k, v => if p.1 == k then (k, v) :: rest else p :: dictSet rest k v

/-- The loop of `get_pomodoro_stats`:
`stats[s.task_id] = stats.get(s.task_id, 0) + 25` over the queried rows. -/
def statsLoop : List SessionRec → List (Nat × Nat) → List (Nat × Nat)
  | [], stats => stats
  | s :: rest, stats =>
      statsLoop rest (dictSet stats s.task_id ((dictGet stats s.task_id).getD 0 + 25))

/-- GET /pomodoro/stats (`get_pomodoro_stats`): fold the completed
sessions into a per-task 25-minute tally; purely a read. -/
def get_pomodoro_stats (st : AppState) : List (Nat × Nat) × AppState :=
  (statsLoop (st.sessions.filter (fun s => s.completed == true)) [], st)

/-- The pydantic regex on the `status` field of the `Task` body model. -/
def validStatus (s : String) : Bool :=
  s == "TODO" || s == "IN_PROGRESS" || s == "DONE"

/-- Pydantic validation of the `Task` body model: title length 3 to 100,
description at most 300 characters, status matching the regex. -/
def validTaskIn (t : TaskIn) : Bool :=
  3 ≤ t.title.length && t.title.length ≤ 100 &&
  (match t.description with | none => true | some d => d.length ≤ 300) &&
  validStatus t.status

/-- The POST /tasks boundary: pydantic rejects an invalid body before
`create_task` runs. -/
def create_task_endpoint (t : TaskIn) (st : AppState) : Except Err AppState :=
  if validTaskIn t then create_task t st else .error .validationError

/-- The PUT /tasks/{task_id} boundary: pydantic rejects an invalid body
before `update_task` runs. -/
def update_task_endpoint (task_id : Nat) (t : TaskIn) (st : AppState) :
    Except Err AppState :=
  if validTaskIn t then update_task task_id t st else .error .validationError

/-- The GET /tasks boundary: the `status` query parameter is declared
`Optional[str]` with no constraint, so no value is ever rejected. -/
def get_tasks_endpoint (status : Option String) (st : AppState) :
    Except Err (List TaskRec × AppState) :=
  .ok (get_tasks status st)

/-- One inbound request to any of the exposed handlers. -/
inductive Op where
  | createTask (t : TaskIn)
  | listTasks (status : Option String)
  | getTask (task_id : Nat)
  | updateTask (task_id : Nat) (t : TaskIn)
  | deleteTask (task_id : Nat)
  | startPomodoro (task_id : Nat) (now : Nat)
  | stopPomodoro (task_id : Nat)
  | pomodoroStats

/-- A raising handler performs no mutation, so an error keeps the state. -/
def stepOf : Except Err AppState → AppState → AppState
  | .ok st', _ => st'
  | .error _, st => st

/-- The state after serving one request. -/
def applyOp : Op → AppState → AppState
  | .createTask t, st => stepOf (create_task_endpoint t st) st
  | .listTasks q, st => (get_tasks q st).2
  | .getTask i, st =>
      match get_task i st with
      | .ok (_, st') => st'
      | .error _ => st
  | .updateTask i t, st => stepOf (update_task_endpoint i t st) st
  | .deleteTask i, st => stepOf (delete_task i st) st
  | .startPomodoro i now, st => stepOf (create_pomodoro i now st) st
  | .stopPomodoro i, st => stepOf (stop_pomodoro i st) st
  | .pomodoroStats, st => (get_pomodoro_stats st).2

/-- The empty store created by `Base.metadata.create_all`. -/
def initState : AppState := { tasks := [], sessions := [], nextId := 0 }

/-- The state after serving a sequence of requests. -/
def applyOps (ops : List Op) (st : AppState) : AppState :=
  ops.foldl (fun s op => applyOp op s) st

/-- States reachable from the empty store by exposed operations. -/
inductive Reachable : AppState → Prop where
  | init : Reachable initState
  | step (op : Op) {st : AppState} : Reachable st → Reachable (applyOp op st)

/-- Number of uncompleted sessions recorded for a task. -/
def countActive (l : List SessionRec) (task_id : Nat) : Nat :=
  l.countP (isActiveFor task_id)

/-- Number of completed sessions recorded for a task (the sessions the
stats endpoint both queries and credits). -/
def countCompletedFor (l : List SessionRec) (task_id : Nat) : Nat :=
  l.countP (fun s => s.task_id == task_id && s.completed == true)

/-- Number of sessions of the stats loop input belonging to a task. -/
def cntTid (l : List SessionRec) (k : Nat) : Nat :=
  l.countP (fun s => s.task_id == k)

/-- Store invariant maintained by every exposed operation: identifiers
are distinct and below the counter, titles are distinct, and each task
has at most one uncompleted session. -/
structure Inv (st : AppState) : Prop where
  ids_nodup : (st.tasks.map TaskRec.id).Nodup
  titles_nodup : (st.tasks.map TaskRec.title).Nodup
  ids_lt : ∀ u ∈ st.tasks, u.id < st.nextId
  active_le : ∀ tid, countActive st.sessions tid ≤ 1

/-- How one stored session may relate to its later version: every field
is kept, except that `completed` may move from false to true. -/
def sessLE (s s' : SessionRec) : Prop :=
  s'.id = s.id ∧ s'.task_id = s.task_id ∧ s'.start_time = s.start_time ∧
  s'.end_time = s.end_time ∧ (s.completed = true → s'.completed = true)

/-- How the session table may evolve: rows are never removed, and each
existing row keeps its place and its fields, except for a false-to-true
move of `completed`. -/
def sessionsEvolve (l l' : List SessionRec) : Prop :=
  l.length ≤ l'.length ∧
  ∀ i (h : i < l.length) (h' : i < l'.length),
    sessLE (l.get ⟨i, h⟩) (l'.get ⟨i, h'⟩)

/-- A well-formed request body used by concrete scenarios. -/
def taskBody : TaskIn := { title := "abc", description := none, status := "TODO" }

/-- A body whose title is lower case. -/
def helloBody : TaskIn := { title := "hello", description := none, status := "TODO" }

/-- A body whose title differs from `helloBody` only in case. -/
def upperBody : TaskIn := { title := "HELLO", description := none, status := "TODO" }

/-- A body with a fresh title. -/
def zzzBody : TaskIn := { title := "zzz", description := none, status := "TODO" }

/-- A body whose status is outside the allowed enumeration. -/
def blahBody : TaskIn := { title := "abc", description := none, status := "BLAH" }

/-- Another body whose status is outside the allowed enumeration. -/
def bogusBody : TaskIn := { title := "abc", description := none, status := "BOGUS" }

/-- The store after creating a task, starting its pomodoro, and deleting
the task: the uncompleted session is orphaned. -/
def orphanState : AppState :=
  applyOps [Op.createTask taskBody, Op.startPomodoro 0 0, Op.deleteTask 0] initState

/-- A stored task used by concrete scenarios. -/
def plainTask : TaskRec := { id := 0, title := "abc", description := none, status := "TODO" }

/-- A store holding one task and no sessions. -/
def singleTaskState : AppState := { tasks := [plainTask], sessions := [], nextId := 1 }

/-- A store holding one task and one uncompleted session for it. -/
def activeState : AppState :=
  { tasks := [plainTask],
    sessions := [{ id := 1, task_id := 0, start_time := 0, end_time := 25,
                   completed := false }],
    nextId := 2 }

/-- A store holding one task titled in lower case. -/
def lowerTitleState : AppState :=
  { tasks := [{ id := 0, title := "hello", description := none, status := "TODO" }],
    sessions := [], nextId := 1 }

/-- A store holding two tasks with distinct titles. -/
def twoTaskState : AppState :=
  { tasks := [{ id := 0, title := "abc", description := none, status := "TODO" },
              { id := 1, title := "xyz", description := none, status := "DONE" }],
    sessions := [], nextId := 2 }

/-- The DONE task stored in `twoTaskState`. -/
def taskDone : TaskRec :=
  { id := 1, title := "xyz", description := none, status := "DONE" }

lemma isActiveFor_iff (tid : Nat) (s : SessionRec) :
    isActiveFor tid s = true ↔ s.task_id = tid ∧ s.completed = false := by
  simp [isActiveFor]

lemma isActiveFor_false_iff (tid : Nat) (s : SessionRec) :
    isActiveFor tid s = false ↔ ¬(s.task_id = tid ∧ s.completed = false) := by
  rw [← isActiveFor_iff tid s, Bool.eq_false_iff, ne_eq]

lemma countActive_append (l l' : List SessionRec) (tid : Nat) :
    countActive (l ++ l') tid = countActive l tid + countActive l' tid :=
  List.countP_append _ _ _

lemma countActive_cons (s : SessionRec) (l : List SessionRec) (tid : Nat) :
    countActive (s :: l) tid =
      countActive l tid + (if isActiveFor tid s = true then 1 else 0) :=
  List.countP_cons _ _ _

lemma countActive_eq_zero (l : List SessionRec) (tid : Nat) :
    countActive l tid = 0 ↔ ∀ s ∈ l, ¬(s.task_id = tid ∧ s.completed = false) := by
  simp [countActive, List.countP_eq_zero, isActiveFor_iff]

lemma setFAC_length (l : List SessionRec) (tid : Nat) :
    (setFirstActiveCompleted l tid).length = l.length := by
  induction l with
  | nil => rfl
  | cons s rest ih =>
    by_cases h : isActiveFor tid s = true
    · simp [setFirstActiveCompleted, h]
    · simp [setFirstActiveCompleted, h, ih]

lemma countActive_setFAC_le (l : List SessionRec) (tid tid' : Nat) :
    countActive (setFirstActiveCompleted l tid) tid' ≤ countActive l tid' := by
  induction l with
  | nil => exact Nat.le_refl _
  | cons s rest ih =>
    by_cases h : isActiveFor tid s = true
    · have hflip : ∀ t', isActiveFor t' { s with completed := true } = false := by
        intro t'; simp [isActiveFor]
      simp only [setFirstActiveCompleted, if_pos h, countActive_cons, hflip]
      simp only [Bool.false_eq_true, if_false, Nat.add_zero]
      exact Nat.le_add_right _ _
    · simp only [setFirstActiveCompleted, if_neg h, countActive_cons]
      exact Nat.add_le_add_right ih _

lemma setFAC_count_zero (l : List SessionRec) (tid : Nat)
    (h : countActive l tid ≤ 1) :
    countActive (setFirstActiveCompleted l tid) tid = 0 := by
  induction l with
  | nil => rfl
  | cons s rest ih =>
    by_cases hs : isActiveFor tid s = true
    · have hflip : isActiveFor tid { s with completed := true } = false := by
        simp [isActiveFor]
      have hcons := countActive_cons s rest tid
      rw [if_pos hs] at hcons
      have h0 : countActive rest tid = 0 := by omega
      simp only [setFirstActiveCompleted, if_pos hs, countActive_cons, hflip]
      simp [h0]
    · have hcons := countActive_cons s rest tid
      rw [if_neg hs] at hcons
      have h' : countActive rest tid ≤ 1 := by omega
      simp only [setFirstActiveCompleted, if_neg hs, countActive_cons, ih h']

lemma setFAC_of_no_active (l : List SessionRec) (tid : Nat)
    (h : ∀ s ∈ l, isActiveFor tid s = false) :
    setFirstActiveCompleted l tid = l := by
  induction l with
  | nil => rfl
  | cons s rest ih =>
    have hs := h s (List.mem_cons_self s rest)
    simp [setFirstActiveCompleted, hs,
      ih (fun x hx => h x (List.mem_cons_of_mem s hx))]

lemma setFAC_set (l : List SessionRec) (tid : Nat) {s0 : SessionRec}
    (h : l.find? (isActiveFor tid) = some s0) :
    ∃ i, ∃ (hi : i < l.length),
      (l.get ⟨i, hi⟩).task_id = tid ∧ (l.get ⟨i, hi⟩).completed = false ∧
      setFirstActiveCompleted l tid =
        l.set i { l.get ⟨i, hi⟩ with completed := true } := by
  induction l with
  | nil => simp at h
  | cons s rest ih =>
    by_cases hs : isActiveFor tid s = true
    · refine ⟨0, Nat.succ_pos _, ((isActiveFor_iff tid s).mp hs).1,
        ((isActiveFor_iff tid s).mp hs).2, ?_⟩
      simp [setFirstActiveCompleted, hs]
    · rw [List.find?_cons_of_neg _ hs] at h
      obtain ⟨i, hi, h1, h2, h3⟩ := ih h
      refine ⟨i + 1, Nat.succ_lt_succ hi, ?_, ?_, ?_⟩
      · simpa using h1
      · simpa using h2
      · simp only [setFirstActiveCompleted, if_neg hs, h3]
        rfl

lemma dictGet_nil (k : Nat) : dictGet [] k = none := rfl

lemma dictGet_cons (p : Nat × Nat) (m : List (Nat × Nat)) (k : Nat) :
    dictGet (p :: m) k =
      if (p.1 == k) = true then some p.2 else dictGet m k := by
  by_cases h : (p.1 == k) = true
  · rw [if_pos h, dictGet, @List.find?_cons_of_pos _ (fun q => q.1 == k) p m h]
    rfl
  · rw [if_neg h, dictGet, @List.find?_cons_of_neg _ (fun q => q.1 == k) p m h]
    rfl

lemma dictSet_nil (k v : Nat) : dictSet [] k v = [(k, v)] := rfl

lemma dictSet_cons_pos {p : Nat × Nat} {k : Nat} (rest : List (Nat × Nat))
    (v : Nat) (hp : (p.1 == k) = true) :
    dictSet (p :: rest) k v = (k, v) :: rest := by
  simp [dictSet, hp]

lemma dictSet_cons_neg {p : Nat × Nat} {k : Nat} (rest : List (Nat × Nat))
    (v : Nat) (hp : (p.1 == k) = false) :
    dictSet (p :: rest) k v = p :: dictSet rest k v := by
  simp [dictSet, hp]

lemma dictGet_dictSet_self (m : List (Nat × Nat)) (k v : Nat) :
    dictGet (dictSet m k v) k = some v := by
  induction m with
  | nil =>
    rw [dictSet_nil, dictGet_cons, if_pos]
    exact beq_self_eq_true k
  | cons p rest ih =>
    cases hp : (p.1 == k) with
    | true =>
      rw [dictSet_cons_pos rest v hp, dictGet_cons, if_pos (beq_self_eq_true k)]
    | false =>
      rw [dictSet_cons_neg rest v hp, dictGet_cons,
        if_neg (by rw [hp]; exact Bool.false_ne_true), ih]

lemma dictGet_dictSet_ne (m : List (Nat × Nat)) (k v k' : Nat) (h : k' ≠ k) :
    dictGet (dictSet m k v) k' = dictGet m k' := by
  have hkk : (k == k') = false := beq_eq_false_iff_ne.mpr (fun e => h e.symm)
  induction m with
  | nil =>
    rw [dictSet_nil, dictGet_cons, if_neg (by rw [hkk]; exact Bool.false_ne_true)]
  | cons p rest ih =>
    cases hp : (p.1 == k) with
    | true =>
      have hp1 : p.1 = k := beq_iff_eq.mp hp
      rw [dictSet_cons_pos rest v hp, dictGet_cons,
        if_neg (by rw [hkk]; exact Bool.false_ne_true), dictGet_cons, hp1,
        if_neg (by rw [hkk]; exact Bool.false_ne_true)]
    | false =>
      rw [dictSet_cons_neg rest v hp, dictGet_cons, dictGet_cons, ih]

lemma statsLoop_get (L : List SessionRec) (acc : List (Nat × Nat)) (k : Nat) :
    dictGet (statsLoop L acc) k =
      if cntTid L k = 0 then dictGet acc k
      else some ((dictGet acc k).getD 0 + 25 * cntTid L k) := by
  induction L generalizing acc with
  | nil => simp [statsLoop, cntTid]
  | cons s rest ih =>
    have hcons : cntTid (s :: rest) k =
        cntTid rest k + (if s.task_id = k then 1 else 0) := by
      simp [cntTid, List.countP_cons]
    by_cases hk : s.task_id = k
    · have hself : dictGet (dictSet acc s.task_id ((dictGet acc s.task_id).getD 0 + 25)) k
          = some ((dictGet acc k).getD 0 + 25) := by
        rw [hk] at *
        exact dictGet_dictSet_self acc k _
      rw [statsLoop, ih, hcons, if_pos hk]
      by_cases h0 : cntTid rest k = 0
      · simp [h0, hself]
      · have : cntTid rest k + 1 ≠ 0 := by omega
        rw [if_neg h0, if_neg this, hself]
        have harith : (dictGet acc k).getD 0 + 25 + 25 * cntTid rest k
            = (dictGet acc k).getD 0 + 25 * (cntTid rest k + 1) := by ring
        simp [harith]
    · have hne : dictGet (dictSet acc s.task_id ((dictGet acc s.task_id).getD 0 + 25)) k
          = dictGet acc k :=
        dictGet_dictSet_ne acc s.task_id _ k (fun e => hk e.symm)
      rw [statsLoop, ih, hcons, if_neg hk, hne]
      simp

lemma stats_get (st : AppState) (tid : Nat) :
    dictGet (get_pomodoro_stats st).1 tid =
      if countCompletedFor st.sessions tid = 0 then none
      else some (25 * countCompletedFor st.sessions tid) := by
  have hcnt : cntTid (st.sessions.filter (fun s => s.completed == true)) tid
      = countCompletedFor st.sessions tid := by
    simp only [cntTid, List.countP_filter]
    rfl
  rw [get_pomodoro_stats, statsLoop_get, hcnt]
  by_cases h : countCompletedFor st.sessions tid = 0
  · simp [h, dictGet]
  · simp [h, dictGet]

lemma updFn_id (task_id : Nat) (t : TaskIn) (u : TaskRec) :
    (updFn task_id t u).id = u.id := by
  by_cases h : (u.id == task_id) = true <;> simp [updFn, h]

lemma updFn_of_ne (task_id : Nat) (t : TaskIn) (u : TaskRec)
    (h : u.id ≠ task_id) : updFn task_id t u = u := by
  simp [updFn, h]

lemma updFn_title_of_eq (task_id : Nat) (t : TaskIn) (u : TaskRec)
    (h : u.id = task_id) : (updFn task_id t u).title = t.title := by
  simp [updFn, h]

lemma map_id_map_updFn (task_id : Nat) (t : TaskIn) (l : List TaskRec) :
    (l.map (updFn task_id t)).map TaskRec.id = l.map TaskRec.id := by
  rw [List.map_map]
  exact List.map_congr_left (fun u _ => updFn_id task_id t u)

lemma mem_titles_map_updFn {x : String} (task_id : Nat) (t : TaskIn)
    (l : List TaskRec)
    (hx : x ∈ (l.map (updFn task_id t)).map TaskRec.title) :
    x ∈ l.map TaskRec.title ∨ x = t.title := by
  rw [List.map_map] at hx
  obtain ⟨u, hu, he⟩ := List.mem_map.mp hx
  by_cases h : u.id = task_id
  · right
    rw [← he]
    simp only [Function.comp_apply]
    exact (updFn_title_of_eq task_id t u h).symm ▸ rfl
  · left
    rw [← he]
    simp only [Function.comp_apply, updFn_of_ne task_id t u h]
    exact List.mem_map.mpr ⟨u, hu, rfl⟩

lemma titles_map_updFn (task_id : Nat) (t : TaskIn) (l : List TaskRec)
    (hids : (l.map TaskRec.id).Nodup)
    (htit : (l.map TaskRec.title).Nodup)
    (hno : ∀ u ∈ l, u.title = t.title → u.id = task_id) :
    ((l.map (updFn task_id t)).map TaskRec.title).Nodup := by
  induction l with
  | nil => simp
  | cons u rest ih =>
    simp only [List.map_cons, List.nodup_cons] at htit hids ⊢
    obtain ⟨hu_nin, htit_rest⟩ := htit
    obtain ⟨huid_nin, hids_rest⟩ := hids
    refine ⟨?_, ih hids_rest htit_rest
      (fun v hv => hno v (List.mem_cons_of_mem _ hv))⟩
    by_cases hu : u.id = task_id
    · have hrest_id : ∀ v ∈ rest, updFn task_id t v = v := by
        intro v hv
        refine updFn_of_ne task_id t v (fun e => ?_)
        exact huid_nin (List.mem_map.mpr ⟨v, hv, by rw [e, hu]⟩)
      rw [List.map_congr_left hrest_id, List.map_id',
        updFn_title_of_eq task_id t u hu]
      intro hmem
      obtain ⟨v, hv, he⟩ := List.mem_map.mp hmem
      have hvid := hno v (List.mem_cons_of_mem _ hv) he
      exact huid_nin (List.mem_map.mpr ⟨v, hv, by rw [hvid, hu]⟩)
    · rw [show (updFn task_id t u).title = u.title by
        simp [updFn_of_ne task_id t u hu]]
      intro hmem
      rcases mem_titles_map_updFn task_id t rest hmem with hin | he
      · exact hu_nin hin
      · exact hu (hno u (List.mem_cons_self _ _) he)

lemma inv_createTask (t : TaskIn) (st : AppState) (h : Inv st) :
    Inv (stepOf (create_task t st) st) := by
  by_cases hc : st.tasks.any (fun u => u.title == t.title) = true
  · simp only [create_task, if_pos hc, stepOf]
    exact h
  · have hc' := Bool.eq_false_iff.mpr hc
    have hno : ∀ u ∈ st.tasks, u.title ≠ t.title := by
      intro u hu
      have hx := List.any_eq_false.mp hc' u hu
      simpa using hx
    simp only [create_task, if_neg hc, stepOf]
    refine ⟨?_, ?_, ?_, ?_⟩
    · rw [List.map_append, List.nodup_append]
      refine ⟨h.ids_nodup, List.nodup_singleton _, ?_⟩
      intro a ha hb
      simp only [List.map_cons, List.map_nil, List.mem_singleton] at hb
      obtain ⟨u, hu, he⟩ := List.mem_map.mp ha
      have := h.ids_lt u hu
      omega
    · rw [List.map_append, List.nodup_append]
      refine ⟨h.titles_nodup, List.nodup_singleton _, ?_⟩
      intro a ha hb
      simp only [List.map_cons, List.map_nil, List.mem_singleton] at hb
      obtain ⟨u, hu, he⟩ := List.mem_map.mp ha
      exact hno u hu (by rw [he, hb])
    · intro u hu
      rcases List.mem_append.mp hu with h1 | h2
      · exact Nat.lt_trans (h.ids_lt u h1) (Nat.lt_succ_self _)
      · rw [List.mem_singleton.mp h2]
        exact Nat.lt_succ_self _
    · exact h.active_le

lemma inv_updateTask (tid : Nat) (t : TaskIn) (st : AppState) (h : Inv st) :
    Inv (stepOf (update_task tid t st) st) := by
  cases hf : st.tasks.find? (fun u => u.id == tid) with
  | none =>
    simp only [update_task, hf, stepOf]
    exact h
  | some u0 =>
    by_cases hc : st.tasks.any (fun u => u.title == t.title && u.id != tid) = true
    · simp only [update_task, hf, if_pos hc, stepOf]
      exact h
    · have hc' := Bool.eq_false_iff.mpr hc
      have hno : ∀ u ∈ st.tasks, u.title = t.title → u.id = tid := by
        intro u hu he
        have hx := List.any_eq_false.mp hc' u hu
        have hx' : ¬(u.title = t.title ∧ u.id ≠ tid) := by simpa using hx
        by_contra hne
        exact hx' ⟨he, hne⟩
      simp only [update_task, hf, if_neg hc, stepOf]
      refine ⟨?_, ?_, ?_, ?_⟩
      · rw [map_id_map_updFn]
        exact h.ids_nodup
      · exact titles_map_updFn tid t st.tasks h.ids_nodup h.titles_nodup hno
      · intro v hv
        obtain ⟨u, hu, he⟩ := List.mem_map.mp hv
        rw [← he, updFn_id]
        exact h.ids_lt u hu
      · exact h.active_le

lemma inv_deleteTask (tid : Nat) (st : AppState) (h : Inv st) :
    Inv (stepOf (delete_task tid st) st) := by
  cases hf : st.tasks.find? (fun u => u.id == tid) with
  | none =>
    simp only [delete_task, hf, stepOf]
    exact h
  | some u0 =>
    simp only [delete_task, hf, stepOf]
    have hsub : (st.tasks.eraseP (fun u => u.id == tid)).Sublist st.tasks :=
      List.eraseP_sublist _
    refine ⟨?_, ?_, ?_, ?_⟩
    · exact List.Nodup.sublist (List.Sublist.map _ hsub) h.ids_nodup
    · exact List.Nodup.sublist (List.Sublist.map _ hsub) h.titles_nodup
    · intro v hv
      exact h.ids_lt v (hsub.subset hv)
    · exact h.active_le

lemma inv_startPomodoro (tid now : Nat) (st : AppState) (h : Inv st) :
    Inv (stepOf (create_pomodoro tid now st) st) := by
  cases hf : st.tasks.find? (fun u => u.id == tid) with
  | none =>
    simp only [create_pomodoro, hf, stepOf]
    exact h
  | some u0 =>
    by_cases hc : st.sessions.any (isActiveFor tid) = true
    · simp only [create_pomodoro, hf, if_pos hc, stepOf]
      exact h
    · have hc' := Bool.eq_false_iff.mpr hc
      have hzero : countActive st.sessions tid = 0 := by
        rw [countActive_eq_zero]
        intro s hs
        have hx := List.any_eq_false.mp hc' s hs
        rw [← isActiveFor_iff]
        exact hx
      simp only [create_pomodoro, hf, if_neg hc, stepOf]
      refine ⟨h.ids_nodup, h.titles_nodup, ?_, ?_⟩
      · intro u hu
        exact Nat.lt_trans (h.ids_lt u hu) (Nat.lt_succ_self _)
      · intro tid'
        rw [countActive_append]
        by_cases ht : tid' = tid
        · subst ht
          have hone : isActiveFor tid'
              { id := st.nextId, task_id := tid', start_time := now,
                end_time := now + 25, completed := false } = true := by
            simp [isActiveFor]
          rw [hzero, countActive_cons, if_pos hone]
          simp [countActive]
        · have hnone : isActiveFor tid'
              { id := st.nextId, task_id := tid, start_time := now,
                end_time := now + 25, completed := false } = false := by
            simp [isActiveFor]
            intro he
            exact absurd he.symm ht
          rw [countActive_cons, if_neg (by rw [hnone]; exact Bool.false_ne_true)]
          simpa [countActive] using h.active_le tid'

lemma inv_stopPomodoro (tid : Nat) (st : AppState) (h : Inv st) :
    Inv (stepOf (stop_pomodoro tid st) st) := by
  cases hf : st.sessions.find? (isActiveFor tid) with
  | none =>
    simp only [stop_pomodoro, hf, stepOf]
    exact h
  | some s0 =>
    simp only [stop_pomodoro, hf, stepOf]
    refine ⟨h.ids_nodup, h.titles_nodup, h.ids_lt, ?_⟩
    intro tid'
    exact Nat.le_trans (countActive_setFAC_le _ _ _) (h.active_le tid')

lemma applyOp_listTasks (q : Option String) (st : AppState) :
    applyOp (Op.listTasks q) st = st := by
  cases q with
  | none => rfl
  | some s =>
    simp only [applyOp, get_tasks]
    split <;> rfl

lemma applyOp_getTask (tid : Nat) (st : AppState) :
    applyOp (Op.getTask tid) st = st := by
  simp only [applyOp, get_task]
  cases hf : st.tasks.find? (fun t => t.id == tid)
  · rfl
  · rfl

lemma inv_step (op : Op) (st : AppState) (h : Inv st) : Inv (applyOp op st) := by
  cases op with
  | createTask t =>
    simp only [applyOp, create_task_endpoint]
    by_cases hv : validTaskIn t = true
    · rw [if_pos hv]
      exact inv_createTask t st h
    · rw [if_neg hv]
      exact h
  | listTasks q =>
    rw [applyOp_listTasks]
    exact h
  | getTask i =>
    rw [applyOp_getTask]
    exact h
  | updateTask i t =>
    simp only [applyOp, update_task_endpoint]
    by_cases hv : validTaskIn t = true
    · rw [if_pos hv]
      exact inv_updateTask i t st h
    · rw [if_neg hv]
      exact h
  | deleteTask i => exact inv_deleteTask i st h
  | startPomodoro i now => exact inv_startPomodoro i now st h
  | stopPomodoro i => exact inv_stopPomodoro i st h
  | pomodoroStats => exact h

lemma inv_init : Inv initState := by
  refine ⟨?_, ?_, ?_, ?_⟩ <;> simp [initState, countActive]

lemma reachable_inv {st : AppState} (h : Reachable st) : Inv st := by
  induction h with
  | init => exact inv_init
  | step op hst ih => exact inv_step op _ ih

lemma sessLE_refl (s : SessionRec) : sessLE s s :=
  ⟨rfl, rfl, rfl, rfl, fun h => h⟩

lemma sessLE_trans {a b c : SessionRec} (h1 : sessLE a b) (h2 : sessLE b c) :
    sessLE a c :=
  ⟨h2.1.trans h1.1, h2.2.1.trans h1.2.1, h2.2.2.1.trans h1.2.2.1,
    h2.2.2.2.1.trans h1.2.2.2.1, fun h => h2.2.2.2.2 (h1.2.2.2.2 h)⟩

lemma sessionsEvolve_refl (l : List SessionRec) : sessionsEvolve l l :=
  ⟨Nat.le_refl _, fun _ _ _ => sessLE_refl _⟩

lemma sessionsEvolve_trans {l l' l'' : List SessionRec}
    (h1 : sessionsEvolve l l') (h2 : sessionsEvolve l' l'') :
    sessionsEvolve l l'' := by
  refine ⟨Nat.le_trans h1.1 h2.1, ?_⟩
  intro i h h'
  have hm : i < l'.length := Nat.lt_of_lt_of_le h h1.1
  exact sessLE_trans (h1.2 i h hm) (h2.2 i hm h')

lemma sessionsEvolve_append (l ext : List SessionRec) :
    sessionsEvolve l (l ++ ext) := by
  refine ⟨by rw [List.length_append]; exact Nat.le_add_right _ _, ?_⟩
  intro i h h'
  have he : (l ++ ext).get ⟨i, h'⟩ = l.get ⟨i, h⟩ := by
    rw [List.get_eq_getElem, List.get_eq_getElem]
    exact List.getElem_append_left h
  rw [he]
  exact sessLE_refl _

lemma sessionsEvolve_cons {s s' : SessionRec} {rest rest' : List SessionRec}
    (h : sessLE s s') (ht : sessionsEvolve rest rest') :
    sessionsEvolve (s :: rest) (s' :: rest') := by
  refine ⟨Nat.succ_le_succ ht.1, ?_⟩
  intro i hi hi'
  cases i with
  | zero => exact h
  | succ n =>
    exact ht.2 n (Nat.lt_of_succ_lt_succ hi) (Nat.lt_of_succ_lt_succ hi')

lemma sessionsEvolve_setFAC (l : List SessionRec) (tid : Nat) :
    sessionsEvolve l (setFirstActiveCompleted l tid) := by
  induction l with
  | nil => exact sessionsEvolve_refl _
  | cons s rest ih =>
    by_cases hs : isActiveFor tid s = true
    · rw [show setFirstActiveCompleted (s :: rest) tid =
          { s with completed := true } :: rest by
        simp [setFirstActiveCompleted, hs]]
      exact sessionsEvolve_cons ⟨rfl, rfl, rfl, rfl, fun _ => rfl⟩
        (sessionsEvolve_refl _)
    · rw [show setFirstActiveCompleted (s :: rest) tid =
          s :: setFirstActiveCompleted rest tid by
        simp [setFirstActiveCompleted, hs]]
      exact sessionsEvolve_cons (sessLE_refl s) ih

lemma sessions_applyOp (op : Op) (st : AppState) :
    sessionsEvolve st.sessions (applyOp op st).sessions := by
  cases op with
  | createTask t =>
    simp only [applyOp, create_task_endpoint]
    by_cases hv : validTaskIn t = true
    · rw [if_pos hv]
      by_cases hc : st.tasks.any (fun u => u.title == t.title) = true
      · simp only [create_task, if_pos hc, stepOf]
        exact sessionsEvolve_refl _
      · simp only [create_task, if_neg hc, stepOf]
        exact sessionsEvolve_refl _
    · rw [if_neg hv]
      exact sessionsEvolve_refl _
  | listTasks q =>
    rw [applyOp_listTasks]
    exact sessionsEvolve_refl _
  | getTask i =>
    rw [applyOp_getTask]
    exact sessionsEvolve_refl _
  | updateTask i t =>
    simp only [applyOp, update_task_endpoint]
    by_cases hv : validTaskIn t = true
    · rw [if_pos hv]
      cases hf : st.tasks.find? (fun u => u.id == i) with
      | none =>
        simp only [update_task, hf, stepOf]
        exact sessionsEvolve_refl _
      | some u0 =>
        by_cases hc : st.tasks.any (fun u => u.title == t.title && u.id != i) = true
        · simp only [update_task, hf, if_pos hc, stepOf]
          exact sessionsEvolve_refl _
        · simp only [update_task, hf, if_neg hc, stepOf]
          exact sessionsEvolve_refl _
    · rw [if_neg hv]
      exact sessionsEvolve_refl _
  | deleteTask i =>
    simp only [applyOp]
    cases hf : st.tasks.find? (fun u => u.id == i) with
    | none =>
      simp only [delete_task, hf, stepOf]
      exact sessionsEvolve_refl _
    | some u0 =>
      simp only [delete_task, hf, stepOf]
      exact sessionsEvolve_refl _
  | startPomodoro i now =>
    simp only [applyOp]
    cases hf : st.tasks.find? (fun u => u.id == i) with
    | none =>
      simp only [create_pomodoro, hf, stepOf]
      exact sessionsEvolve_refl _
    | some u0 =>
      by_cases hc : st.sessions.any (isActiveFor i) = true
      · simp only [create_pomodoro, hf, if_pos hc, stepOf]
        exact sessionsEvolve_refl _
      · simp only [create_pomodoro, hf, if_neg hc, stepOf]
        exact sessionsEvolve_append _ _
  | stopPomodoro i =>
    simp only [applyOp]
    cases hf : st.sessions.find? (isActiveFor i) with
    | none =>
      simp only [stop_pomodoro, hf, stepOf]
      exact sessionsEvolve_refl _
    | some s0 =>
      simp only [stop_pomodoro, hf, stepOf]
      exact sessionsEvolve_setFAC _ _
  | pomodoroStats => exact sessionsEvolve_refl _

lemma find_task_some_of_exists (st : AppState) (tid : Nat)
    (h : ∃ u ∈ st.tasks, u.id = tid) :
    ∃ u0, st.tasks.find? (fun u => u.id == tid) = some u0 := by
  have hs : (st.tasks.find? (fun u => u.id == tid)).isSome = true := by
    rw [List.find?_isSome]
    obtain ⟨u, hu, he⟩ := h
    exact ⟨u, hu, by simp [he]⟩
  exact Option.isSome_iff_exists.mp hs

lemma find_task_none_of_not_exists (st : AppState) (tid : Nat)
    (h : ∀ u ∈ st.tasks, u.id ≠ tid) :
    st.tasks.find? (fun u => u.id == tid) = none := by
  rw [List.find?_eq_none]
  intro u hu
  simpa using h u hu

lemma find_active_none_iff (l : List SessionRec) (tid : Nat) :
    l.find? (isActiveFor tid) = none ↔
      ∀ s ∈ l, ¬(s.task_id = tid ∧ s.completed = false) := by
  rw [List.find?_eq_none]
  simp only [isActiveFor_iff]

lemma find_active_some_of_exists (l : List SessionRec) (tid : Nat)
    (h : ∃ s ∈ l, s.task_id = tid ∧ s.completed = false) :
    ∃ s0, l.find? (isActiveFor tid) = some s0 := by
  have hs : (l.find? (isActiveFor tid)).isSome = true := by
    rw [List.find?_isSome]
    obtain ⟨s, hsm, hp⟩ := h
    exact ⟨s, hsm, (isActiveFor_iff tid s).mpr hp⟩
  exact Option.isSome_iff_exists.mp hs

lemma any_active_iff (l : List SessionRec) (tid : Nat) :
    l.any (isActiveFor tid) = true ↔
      ∃ s ∈ l, s.task_id = tid ∧ s.completed = false := by
  rw [List.any_eq_true]
  simp only [isActiveFor_iff]

lemma create_pomodoro_notFound (tid now : Nat) (st : AppState)
    (h : ∀ u ∈ st.tasks, u.id ≠ tid) :
    create_pomodoro tid now st = .error .notFound := by
  simp only [create_pomodoro, find_task_none_of_not_exists st tid h]

lemma create_pomodoro_conflict (tid now : Nat) (st : AppState)
    (h1 : ∃ u ∈ st.tasks, u.id = tid)
    (h2 : ∃ s ∈ st.sessions, s.task_id = tid ∧ s.completed = false) :
    create_pomodoro tid now st = .error .conflict := by
  obtain ⟨u0, hf⟩ := find_task_some_of_exists st tid h1
  have hany : st.sessions.any (isActiveFor tid) = true :=
    (any_active_iff _ _).mpr h2
  simp only [create_pomodoro, hf, if_pos hany]

lemma create_pomodoro_ok (tid now : Nat) (st : AppState)
    (h1 : ∃ u ∈ st.tasks, u.id = tid)
    (h2 : ∀ s ∈ st.sessions, ¬(s.task_id = tid ∧ s.completed = false)) :
    create_pomodoro tid now st = .ok { st with
      sessions := st.sessions ++
        [{ id := st.nextId, task_id := tid, start_time := now,
           end_time := now + 25, completed := false }],
      nextId := st.nextId + 1 } := by
  obtain ⟨u0, hf⟩ := find_task_some_of_exists st tid h1
  have hany : st.sessions.any (isActiveFor tid) = false := by
    rw [List.any_eq_false]
    intro s hs
    rw [isActiveFor_iff]
    exact h2 s hs
  have hneg : ¬(st.sessions.any (isActiveFor tid) = true) := by
    rw [hany]
    exact Bool.false_ne_true
  simp only [create_pomodoro, hf, if_neg hneg]

lemma stop_eq_notFound_iff (tid : Nat) (st : AppState) :
    stop_pomodoro tid st = .error .notFound ↔
      ∀ s ∈ st.sessions, ¬(s.task_id = tid ∧ s.completed = false) := by
  constructor
  · intro h
    cases hf : st.sessions.find? (isActiveFor tid) with
    | none => exact (find_active_none_iff _ _).mp hf
    | some s0 =>
      simp only [stop_pomodoro, hf] at h
      exact Except.noConfusion h
  · intro h
    simp only [stop_pomodoro, (find_active_none_iff st.sessions tid).mpr h]

/-- Claim C1, counterexample to the clause "start(task_id) fails with
Conflict when such a session already exists": in the reachable store
obtained by creating a task, starting its pomodoro and deleting the
task, an uncompleted session for task 0 exists, yet start(0) fails with
NotFound, not Conflict, because the task-existence check runs first. -/
theorem start_conflict_clause_refuted :
    Reachable orphanState ∧
    (∃ s ∈ orphanState.sessions, s.task_id = 0 ∧ s.completed = false) ∧
    create_pomodoro 0 30 orphanState = .error .notFound ∧
    create_pomodoro 0 30 orphanState ≠ .error .conflict := by
  refine ⟨Reachable.step (Op.deleteTask 0)
      (Reachable.step (Op.startPomodoro 0 0)
        (Reachable.step (Op.createTask taskBody) Reachable.init)),
    by decide, by rfl, ?_⟩
  intro h
  have h0 : create_pomodoro 0 30 orphanState = .error .notFound := rfl
  rw [h0] at h
  exact absurd (Except.error.inj h) (by decide)

/-- Claim C1 (amended): in every reachable state each task has at most
one uncompleted session; moreover, when a Task with the given id exists,
start fails with Conflict when an uncompleted session already exists for
it and otherwise creates one (making the active count exactly one). -/
theorem active_session_unique :
    (∀ st, Reachable st → ∀ tid, countActive st.sessions tid ≤ 1) ∧
    (∀ st tid now, (∃ u ∈ st.tasks, u.id = tid) →
      ((∃ s ∈ st.sessions, s.task_id = tid ∧ s.completed = false) →
        create_pomodoro tid now st = .error .conflict) ∧
      ((∀ s ∈ st.sessions, ¬(s.task_id = tid ∧ s.completed = false)) →
        ∃ st', create_pomodoro tid now st = .ok st' ∧
          st'.sessions.length = st.sessions.length + 1 ∧
          countActive st'.sessions tid = 1)) := by
  constructor
  · intro st h tid
    exact (reachable_inv h).active_le tid
  · intro st tid now h1
    constructor
    · intro h2
      exact create_pomodoro_conflict tid now st h1 h2
    · intro h2
      refine ⟨_, create_pomodoro_ok tid now st h1 h2, ?_, ?_⟩
      · simp
      · have hzero : countActive st.sessions tid = 0 :=
          (countActive_eq_zero _ _).mpr h2
        have hone : isActiveFor tid
            { id := st.nextId, task_id := tid, start_time := now,
              end_time := now + 25, completed := false } = true := by
          simp [isActiveFor]
        rw [show ({ st with
            sessions := st.sessions ++
              [{ id := st.nextId, task_id := tid, start_time := now,
                 end_time := now + 25, completed := false }],
            nextId := st.nextId + 1 } : AppState).sessions
            = st.sessions ++
              [{ id := st.nextId, task_id := tid, start_time := now,
                 end_time := now + 25, completed := false }] from rfl,
          countActive_append, hzero, countActive_cons, if_pos hone]
        simp [countActive]

/-- Concrete run for C1: after creating a task and starting a pomodoro,
the active count is at most one, and starting again conflicts. -/
theorem active_session_unique_witness :
    countActive (applyOps [Op.createTask taskBody,
      Op.startPomodoro 0 0] initState).sessions 0 ≤ 1 ∧
    create_pomodoro 0 40 (applyOps [Op.createTask taskBody,
      Op.startPomodoro 0 0] initState) = .error .conflict :=
  ⟨active_session_unique.1 _
      (Reachable.step (Op.startPomodoro 0 0)
        (Reachable.step (Op.createTask taskBody) Reachable.init)) 0,
   (active_session_unique.2 (applyOps [Op.createTask taskBody,
        Op.startPomodoro 0 0] initState) 0 40 (by decide)).1 (by decide)⟩

/-- Claim C2: start fails with NotFound when the task id is absent,
fails with Conflict when (the task exists and) an uncompleted session
for it exists, and otherwise appends exactly one new session with
start_time = now, end_time = now + 25 and completed = false, mutating no
task record. -/
theorem start_pomodoro_correct (tid now : Nat) (st : AppState) :
    ((∀ u ∈ st.tasks, u.id ≠ tid) →
      create_pomodoro tid now st = .error .notFound) ∧
    ((∃ u ∈ st.tasks, u.id = tid) →
      (∃ s ∈ st.sessions, s.task_id = tid ∧ s.completed = false) →
      create_pomodoro tid now st = .error .conflict) ∧
    ((∃ u ∈ st.tasks, u.id = tid) →
      (∀ s ∈ st.sessions, ¬(s.task_id = tid ∧ s.completed = false)) →
      ∃ st', create_pomodoro tid now st = .ok st' ∧
        st'.tasks = st.tasks ∧
        st'.sessions = st.sessions ++
          [{ id := st.nextId, task_id := tid, start_time := now,
             end_time := now + 25, completed := false }]) := by
  refine ⟨?_, ?_, ?_⟩
  · intro h
    exact create_pomodoro_notFound tid now st h
  · intro h1 h2
    exact create_pomodoro_conflict tid now st h1 h2
  · intro h1 h2
    exact ⟨_, create_pomodoro_ok tid now st h1 h2, rfl, rfl⟩

/-- Concrete runs for C2: NotFound on a missing task, Conflict on an
active session, a fresh session otherwise. -/
theorem start_pomodoro_correct_witness :
    create_pomodoro 5 0 singleTaskState = .error .notFound ∧
    create_pomodoro 0 40 activeState = .error .conflict ∧
    (∃ st', create_pomodoro 0 7 singleTaskState = .ok st' ∧
      st'.tasks = singleTaskState.tasks ∧
      st'.sessions = singleTaskState.sessions ++
        [{ id := 1, task_id := 0, start_time := 7, end_time := 32,
           completed := false }]) :=
  ⟨(start_pomodoro_correct 5 0 singleTaskState).1 (by decide),
   (start_pomodoro_correct 0 40 activeState).2.1 (by decide) (by decide),
   (start_pomodoro_correct 0 7 singleTaskState).2.2 (by decide) (by decide)⟩

/-- Claim C3: stop fails with NotFound exactly when no uncompleted
session exists for the task; otherwise it flips the completed flag of
one matching session (the handler takes no clock input, so no check of
end_time is possible and stopping early succeeds); with at most one
active session a second consecutive stop fails with NotFound. -/
theorem stop_pomodoro_correct (tid : Nat) (st : AppState) :
    (stop_pomodoro tid st = .error .notFound ↔
      ∀ s ∈ st.sessions, ¬(s.task_id = tid ∧ s.completed = false)) ∧
    ((∃ s ∈ st.sessions, s.task_id = tid ∧ s.completed = false) →
      ∃ st' i, ∃ (hi : i < st.sessions.length)
        (hi' : i < st'.sessions.length),
        stop_pomodoro tid st = .ok st' ∧
        st'.tasks = st.tasks ∧
        st'.sessions.length = st.sessions.length ∧
        (st.sessions.get ⟨i, hi⟩).task_id = tid ∧
        (st.sessions.get ⟨i, hi⟩).completed = false ∧
        st'.sessions.get ⟨i, hi'⟩ =
          { st.sessions.get ⟨i, hi⟩ with completed := true } ∧
        (∀ j (hj : j < st.sessions.length) (hj' : j < st'.sessions.length),
          j ≠ i → st'.sessions.get ⟨j, hj'⟩ = st.sessions.get ⟨j, hj⟩)) ∧
    (countActive st.sessions tid ≤ 1 →
      ∀ st', stop_pomodoro tid st = .ok st' →
        stop_pomodoro tid st' = .error .notFound) := by
  refine ⟨stop_eq_notFound_iff tid st, ?_, ?_⟩
  · intro h2
    obtain ⟨s0, hf⟩ := find_active_some_of_exists st.sessions tid h2
    obtain ⟨i, hi, ht, hc, hset⟩ := setFAC_set st.sessions tid hf
    have hlen : (setFirstActiveCompleted st.sessions tid).length
        = st.sessions.length := setFAC_length _ _
    refine ⟨{ st with sessions := setFirstActiveCompleted st.sessions tid },
      i, hi, by rw [show ({ st with
        sessions := setFirstActiveCompleted st.sessions tid } :
        AppState).sessions = setFirstActiveCompleted st.sessions tid
        from rfl, hlen]; exact hi, ?_, rfl, hlen, ht, hc, ?_, ?_⟩
    · simp only [stop_pomodoro, hf]
    · rw [List.get_eq_getElem]
      simp only [hset]
      rw [List.getElem_set_self _]
    · intro j hj hj' hne
      rw [List.get_eq_getElem, List.get_eq_getElem]
      simp only [hset]
      rw [List.getElem_set_ne (fun e => hne e.symm)]
  · intro hle st' hok
    cases hf : st.sessions.find? (isActiveFor tid) with
    | none =>
      simp only [stop_pomodoro, hf] at hok
      exact Except.noConfusion hok
    | some s0 =>
      simp only [stop_pomodoro, hf, Except.ok.injEq] at hok
      subst hok
      rw [stop_eq_notFound_iff]
      intro s hs
      have h0 : countActive (setFirstActiveCompleted st.sessions tid) tid = 0 :=
        setFAC_count_zero _ _ hle
      exact (countActive_eq_zero _ _).mp h0 s hs

/-- Concrete runs for C3: stop with no session is NotFound, stop with an
active session completes it, and an immediate second stop is NotFound. -/
theorem stop_pomodoro_correct_witness :
    stop_pomodoro 0 singleTaskState = .error .notFound ∧
    stop_pomodoro 0 activeState =
      .ok { activeState with
        sessions := [{ id := 1, task_id := 0, start_time := 0, end_time := 25,
                       completed := true }] } ∧
    stop_pomodoro 0 { activeState with
      sessions := [{ id := 1, task_id := 0, start_time := 0, end_time := 25,
                     completed := true }] } = .error .notFound := by
  refine ⟨(stop_pomodoro_correct 0 singleTaskState).1.mpr (by decide),
    by rfl, ?_⟩
  exact (stop_pomodoro_correct 0 activeState).2.2 (by decide) _ (by rfl)

/-- Claim C4: the stats endpoint mutates nothing, and its mapping holds
a key exactly for the task ids with at least one completed session, each
bound to 25 times the number of such sessions, with no dependence on the
recorded start or end times. -/
theorem stats_correct (st : AppState) (tid : Nat) :
    (get_pomodoro_stats st).2 = st ∧
    dictGet (get_pomodoro_stats st).1 tid =
      (if countCompletedFor st.sessions tid = 0 then none
       else some (25 * countCompletedFor st.sessions tid)) :=
  ⟨rfl, stats_get st tid⟩

/-- Claim C5: creating with an existing title or updating to a title
held by a different record fails with Conflict and leaves the store
unchanged; creation succeeds when no task holds the exact (case
matching) title; and every reachable store has pairwise distinct
titles. -/
theorem title_uniqueness (t : TaskIn) (tid : Nat) (st : AppState) :
    ((∃ u ∈ st.tasks, u.title = t.title) →
      create_task t st = .error .conflict ∧ applyOp (Op.createTask t) st = st) ∧
    ((∃ u ∈ st.tasks, u.id = tid) →
      (∃ u ∈ st.tasks, u.title = t.title ∧ u.id ≠ tid) →
      update_task tid t st = .error .conflict ∧
        applyOp (Op.updateTask tid t) st = st) ∧
    ((∀ u ∈ st.tasks, u.title ≠ t.title) →
      ∃ st', create_task t st = .ok st') ∧
    (Reachable st → (st.tasks.map TaskRec.title).Nodup) := by
  refine ⟨?_, ?_, ?_, ?_⟩
  · intro h
    have hany : st.tasks.any (fun u => u.title == t.title) = true := by
      rw [List.any_eq_true]
      obtain ⟨u, hu, he⟩ := h
      exact ⟨u, hu, by simp [he]⟩
    have hc : create_task t st = .error .conflict := by
      simp only [create_task, if_pos hany]
    refine ⟨hc, ?_⟩
    simp only [applyOp, create_task_endpoint]
    by_cases hv : validTaskIn t = true
    · rw [if_pos hv, hc]
      rfl
    · rw [if_neg hv]
      rfl
  · intro h1 h2
    obtain ⟨u0, hf⟩ := find_task_some_of_exists st tid h1
    have hany : st.tasks.any (fun u => u.title == t.title && u.id != tid) = true := by
      rw [List.any_eq_true]
      obtain ⟨u, hu, he⟩ := h2
      exact ⟨u, hu, by simp [he.1, he.2]⟩
    have hc : update_task tid t st = .error .conflict := by
      simp only [update_task, hf, if_pos hany]
    refine ⟨hc, ?_⟩
    simp only [applyOp, update_task_endpoint]
    by_cases hv : validTaskIn t = true
    · rw [if_pos hv, hc]
      rfl
    · rw [if_neg hv]
      rfl
  · intro h
    have hany : st.tasks.any (fun u => u.title == t.title) = false := by
      rw [List.any_eq_false]
      intro u hu
      simpa using h u hu
    have hneg : ¬(st.tasks.any (fun u => u.title == t.title) = true) := by
      rw [hany]
      exact Bool.false_ne_true
    have hco : create_task t st = .ok { st with
        tasks := st.tasks ++
          [{ id := st.nextId, title := t.title,
             description := t.description, status := t.status }],
        nextId := st.nextId + 1 } := by
      simp only [create_task, if_neg hneg]
    exact ⟨_, hco⟩
  · intro h
    exact (reachable_inv h).titles_nodup

/-- Concrete runs for C5: a duplicate title conflicts on create and on
update, a title differing only in case is accepted, and a reachable
single-task store has distinct titles. -/
theorem title_uniqueness_witness :
    (create_task helloBody lowerTitleState = .error .conflict ∧
      applyOp (Op.createTask helloBody) lowerTitleState = lowerTitleState) ∧
    (update_task 1 taskBody twoTaskState = .error .conflict ∧
      applyOp (Op.updateTask 1 taskBody) twoTaskState = twoTaskState) ∧
    (∃ st', create_task upperBody lowerTitleState = .ok st') ∧
    (lowerTitleState.tasks.map TaskRec.title).Nodup :=
  ⟨(title_uniqueness helloBody 0 lowerTitleState).1 (by decide),
   (title_uniqueness taskBody 1 twoTaskState).2.1 (by decide) (by decide),
   (title_uniqueness upperBody 0 lowerTitleState).2.2.1 (by decide),
   (title_uniqueness zzzBody 0 lowerTitleState).2.2.2
     (Reachable.step (Op.createTask helloBody) Reachable.init)⟩

/-- Claim C6: a successful delete removes exactly the matching task
record; the session table is untouched, so the stats computed from it
are unchanged as well. -/
theorem delete_task_frame (tid : Nat) (st st' : AppState)
    (h : delete_task tid st = .ok st') :
    st'.sessions = st.sessions ∧
    (get_pomodoro_stats st').1 = (get_pomodoro_stats st).1 ∧
    st'.nextId = st.nextId ∧
    ∃ u l₁ l₂, u.id = tid ∧ st.tasks = l₁ ++ u :: l₂ ∧ st'.tasks = l₁ ++ l₂ := by
  cases hf : st.tasks.find? (fun u => u.id == tid) with
  | none =>
    simp only [delete_task, hf] at h
    exact Except.noConfusion h
  | some u0 =>
    simp only [delete_task, hf, Except.ok.injEq] at h
    subst h
    refine ⟨rfl, rfl, rfl, ?_⟩
    have hmem := List.mem_of_find?_eq_some hf
    have hp := List.find?_some hf
    obtain ⟨a, l₁, l₂, hl1, hpa, hsplit, herase⟩ :=
      @List.exists_of_eraseP _ (fun u => u.id == tid) st.tasks u0 hmem hp
    exact ⟨a, l₁, l₂, beq_iff_eq.mp hpa, hsplit, herase⟩

/-- Concrete run for C6: deleting the task of an active session keeps
the session store intact. -/
theorem delete_task_frame_witness :
    ({ activeState with tasks := [] } : AppState).sessions
      = activeState.sessions ∧
    (get_pomodoro_stats { activeState with tasks := [] }).1
      = (get_pomodoro_stats activeState).1 ∧
    (∃ u l₁ l₂, u.id = 0 ∧ activeState.tasks = l₁ ++ u :: l₂ ∧
      ({ activeState with tasks := [] } : AppState).tasks = l₁ ++ l₂) := by
  have h : delete_task 0 activeState = .ok { activeState with tasks := [] } := rfl
  have hc := delete_task_frame 0 activeState { activeState with tasks := [] } h
  exact ⟨hc.1, hc.2.1, hc.2.2.2⟩

/-- Claim C7: under any sequence of exposed operations the session table
only grows; every existing row keeps its identifier, task, start and end
times, and its completed flag never moves from true back to false. -/
theorem sessions_never_deleted (ops : List Op) (st : AppState) :
    sessionsEvolve st.sessions (applyOps ops st).sessions := by
  induction ops generalizing st with
  | nil => exact sessionsEvolve_refl _
  | cons op rest ih =>
    exact sessionsEvolve_trans (sessions_applyOp op st) (ih (applyOp op st))

/-- Claim C8 (amended): the status field of the task create and update
bodies accepts exactly TODO, IN_PROGRESS and DONE and any other value is
rejected with a validation error before the handler runs, while the
status filter of the task-listing endpoint is not validated: every
string is accepted and the request succeeds. -/
theorem status_boundary (t : TaskIn) (tid : Nat) (st : AppState) (q : String) :
    (validStatus t.status = true ↔
      t.status = "TODO" ∨ t.status = "IN_PROGRESS" ∨ t.status = "DONE") ∧
    (validStatus t.status = false →
      create_task_endpoint t st = .error .validationError ∧
      update_task_endpoint tid t st = .error .validationError) ∧
    (∃ r, get_tasks_endpoint (some q) st = .ok (r, st)) := by
  refine ⟨?_, ?_, ?_⟩
  · simp [validStatus, or_assoc]
  · intro h
    have hv : validTaskIn t = false := by
      simp [validTaskIn, h]
    have hneg : ¬(validTaskIn t = true) := by
      rw [hv]
      exact Bool.false_ne_true
    exact ⟨by simp only [create_task_endpoint, if_neg hneg],
      by simp only [update_task_endpoint, if_neg hneg]⟩
  · cases hq : (q == "") with
    | true =>
      exact ⟨st.tasks, by simp only [get_tasks_endpoint, get_tasks, hq, if_pos]⟩
    | false =>
      refine ⟨st.tasks.filter (fun u => u.status == q), ?_⟩
      have hneg : ¬((q == "") = true) := by
        rw [hq]
        exact Bool.false_ne_true
      simp only [get_tasks_endpoint, get_tasks, if_neg hneg]

/-- Concrete run for C8 (amended side): a body with status BLAH is
rejected at the boundary while the same string as a listing filter is
accepted. -/
theorem status_boundary_witness :
    validStatus "BLAH" = false ∧
    create_task_endpoint blahBody singleTaskState = .error .validationError ∧
    (∃ r, get_tasks_endpoint (some "BLAH") singleTaskState
      = .ok (r, singleTaskState)) := by
  have h : validStatus "BLAH" = false := by decide
  exact ⟨h,
    ((status_boundary blahBody 0 singleTaskState "BLAH").2.1 h).1,
    (status_boundary blahBody 0 singleTaskState "BLAH").2.2⟩

/-- Claim C8, counterexample: BOGUS is outside the status enumeration,
yet the task-listing request carrying it succeeds instead of being
rejected; only the create/update bodies are validated. -/
theorem status_filter_unvalidated :
    validStatus "BOGUS" = false ∧
    get_tasks_endpoint (some "BOGUS") singleTaskState
      = .ok ([], singleTaskState) ∧
    create_task_endpoint bogusBody singleTaskState = .error .validationError :=
  ⟨by decide, by rfl, by rfl⟩

/-- Claim C9: an empty-string status filter lists exactly like no
filter, returning the stored tasks, and a non-empty filter returns
exactly the tasks with that status. -/
theorem list_tasks_filter (st : AppState) (s : String) :
    get_tasks (some "") st = get_tasks none st ∧
    (get_tasks none st).1 = st.tasks ∧
    (s ≠ "" → ∀ u, u ∈ (get_tasks (some s) st).1 ↔
      u ∈ st.tasks ∧ u.status = s) := by
  refine ⟨rfl, rfl, ?_⟩
  intro hs u
  have hq : (s == "") = false := beq_eq_false_iff_ne.mpr hs
  have hneg : ¬((s == "") = true) := by
    rw [hq]
    exact Bool.false_ne_true
  simp only [get_tasks, if_neg hneg]
  rw [List.mem_filter]
  simp

/-- Concrete run for C9: filtering the two-task store by DONE returns
exactly its DONE task. -/
theorem list_tasks_filter_witness :
    taskDone ∈ (get_tasks (some "DONE") twoTaskState).1 ↔
      taskDone ∈ twoTaskState.tasks ∧ taskDone.status = "DONE" :=
  (list_tasks_filter twoTaskState "DONE").2.2 (by decide) taskDone

/-- Claim C10: the three read endpoints return the store unchanged, on
the success and on the NotFound path alike. -/
theorem read_ops_no_mutation (st : AppState) (q : Option String) (tid : Nat) :
    (get_tasks q st).2 = st ∧
    (get_pomodoro_stats st).2 = st ∧
    (∀ r st', get_task tid st = .ok (r, st') → st' = st) ∧
    applyOp (Op.listTasks q) st = st ∧
    applyOp (Op.getTask tid) st = st ∧
    applyOp Op.pomodoroStats st = st := by
  refine ⟨?_, rfl, ?_, applyOp_listTasks q st, applyOp_getTask tid st, rfl⟩
  · cases q with
    | none => rfl
    | some s =>
      simp only [get_tasks]
      split <;> rfl
  · intro r st' h
    cases hf : st.tasks.find? (fun t => t.id == tid) with
    | none =>
      simp only [get_task, hf] at h
      exact Except.noConfusion h
    | some u =>
      simp only [get_task, hf, Except.ok.injEq, Prod.mk.injEq] at h
      exact h.2.symm

/-- Concrete run for C10: fetching an existing task returns the store
unchanged, and fetching a missing id leaves the state in place. -/
theorem read_ops_no_mutation_witness :
    singleTaskState = singleTaskState ∧
    applyOp (Op.getTask 5) singleTaskState = singleTaskState :=
  ⟨(read_ops_no_mutation singleTaskState none 0).2.2.1 plainTask
      singleTaskState (by rfl),
   (read_ops_no_mutation singleTaskState none 5).2.2.2.2.1⟩

end TodoPomodoro
